import Mathlib

/-!
Shallow embedding of the go-dl download engine (downloader.go) and proofs of
the specified properties: range partitioning, resume adjustment, merge order,
HEAD-based strategy dispatch, filename collision resolution, pause semantics
and the chunked copy loop with cooperative cancellation.

Byte counts, offsets and sizes are modelled as `Nat` (Go `int` values that are
non-negative in every reachable state of the engine).  Filesystem presence is
modelled as a boolean predicate on paths, and the part-file sizes found on disk
during resume as a map `Nat → Option Nat` (`none` models `os.Open` failing:
no such partial file).
-/

namespace GoDl

/-- Session configuration, from `type Config struct` in downloader.go. -/
structure Config where
  URL : String
  HeadURL : String
  Concurrency : Nat
  OutFilename : String
  CopyBufferSize : Nat
  Resume : Bool
deriving Repr, DecidableEq

/-- Helper for `filepathExt`: walk the path characters from the end; the
extension starts at the final dot of the final slash-separated element
(model of Go `filepath.Ext`).  The accumulator holds the characters already
passed, in original order. -/
def extAux : List Char → List Char → String
  | [], _ => ""
  | c :: rest, acc =>
    if c = '/' then ""
    else if c = '.' then String.mk ('.' :: acc)
    else extAux rest (c :: acc)

/-- Model of Go `filepath.Ext`: the suffix beginning at the final dot in the
final element of the path; empty if there is no dot. -/
def filepathExt (p : String) : String :=
  extAux p.data.reverse []

/-- Model of `getFilenameAndExt` in downloader.go: the filename with the
extension trimmed off (`strings.TrimSuffix`), paired with the extension. -/
def getFilenameAndExt (fileName : String) : String × String :=
  let ext := filepathExt fileName
  (fileName.dropRight ext.length, ext)

/-- Model of Go `filepath.Dir` for cleaned paths: everything before the last
slash; `"."` when the path has no slash, `"/"` when the last slash is the
leading one. -/
def filepathDir (p : String) : String :=
  match p.data.reverse.dropWhile (fun c => !(c = '/')) with
  | [] => "."
  | _ :: rest => if rest.isEmpty then "/" else String.mk rest.reverse

/-- Model of Go `path.Join` on two cleaned elements. -/
def pathJoin (dir name : String) : String :=
  if dir = "" then name
  else if dir = "." then name
  else if dir = "/" then "/" ++ name
  else dir ++ "/" ++ name

/-- The candidate path built by iteration `counter` of the rename loop in
`renameFilenameIfNecessary`:
`fmt.Sprintf("%s(%d)%s", filename, counter, ext)` joined onto the output
directory. -/
def renameCandidate (out : String) (counter : Nat) : String :=
  pathJoin (filepathDir out)
    ((getFilenameAndExt out).1 ++ "(" ++ Nat.repr counter ++ ")" ++ (getFilenameAndExt out).2)

/-- The `for err == nil` loop of `renameFilenameIfNecessary`: try candidate
paths with increasing counters until `os.Stat` fails (the path is unused).
`stat` is the filesystem model (`true` = the path exists).  The Go loop has no
bound, so the model carries fuel; `none` models non-termination (every
candidate exists). -/
def renameLoop (stat : String → Bool) (filename ext outDir : String) :
    Nat → Nat → Option String
  | 0, _ => none
  | fuel + 1, counter =>
    let newFilename := filename ++ "(" ++ Nat.repr counter ++ ")" ++ ext
    let out := pathJoin outDir newFilename
    if stat out then renameLoop stat filename ext outDir fuel (counter + 1)
    else some out

/-- Model of `renameFilenameIfNecessary` in downloader.go: in resume mode the
configured output path is returned untouched; otherwise, if the path exists,
run the rename loop starting at counter 1. -/
def renameFilenameIfNecessary (resume : Bool) (stat : String → Bool) (fuel : Nat)
    (out : String) : Option String :=
  if resume then some out
  else if stat out then
    renameLoop stat (getFilenameAndExt out).1 (getFilenameAndExt out).2
      (filepathDir out) fuel 1
  else some out

/-- Observable session state of `type Downloader struct`: the `Paused` flag,
whether the `context`/`cancel` pair is non-nil (it is nil until `Download`
first runs), and whether the current context has been cancelled. -/
structure Downloader where
  Paused : Bool
  hasCancel : Bool
  cancelled : Bool
deriving Repr, DecidableEq

/-- The downloader as constructed by `NewFromConfig`
(`d := &Downloader{config: config}`): not paused, and the cancellation
context/function are nil because `Download` has not yet been invoked. -/
def newDownloader : Downloader :=
  { Paused := false, hasCancel := false, cancelled := false }

/-- Model of `Pause`: it sets `d.Paused = true` and then calls `d.cancel()`.
When `Download` has never been invoked, `d.cancel` is a nil function value and
the call panics; `none` models that panic. -/
def Pause (d : Downloader) : Option Downloader :=
  if d.hasCancel then some { d with Paused := true, cancelled := true }
  else none

/-- Model of `strconv.Atoi` for the non-negative decimal integers relevant to
`Content-Length` parsing: all-digit non-empty strings parse, anything else is
a parse error (sign handling is omitted; no reachable behaviour depends on
it). -/
def atoi (s : String) : Option Nat :=
  if s.data ≠ [] ∧ s.data.all (fun c => c.isDigit) then
    some (s.data.foldl (fun n c => n * 10 + (c.toNat - '0'.toNat)) 0)
  else none

/-- The HEAD response fields read by `Download`: status code, the
`Accept-Ranges` header value (empty string when the header is absent, as
returned by `Header.Get`), and the raw `Content-Length` header value. -/
structure HeadResponse where
  statusCode : Nat
  acceptRanges : String
  contentLength : String
deriving Repr, DecidableEq

/-- Which path `Download` takes after the HEAD probe. -/
inductive DownloadPath where
  /-- the multi-segment path, `d.multiDownload(contentSize)` -/
  | multi (contentSize : Nat)
  /-- `log.Fatal` because `strconv.Atoi` failed on `Content-Length` -/
  | fatalLength
  /-- the whole-file path, `d.simpleDownload()` -/
  | simple
deriving Repr, DecidableEq

/-- Model of `Download`: it first installs a fresh cancellation context
(`context.WithCancel`), then dispatches on the HEAD response: status 200
together with `Accept-Ranges: bytes` selects the multi-segment path (after
parsing `Content-Length`, whose failure is fatal), anything else selects
`simpleDownload`. -/
def Download (d : Downloader) (res : HeadResponse) : Downloader × DownloadPath :=
  let started := { d with hasCancel := true, cancelled := false }
  if res.statusCode = 200 ∧ res.acceptRanges = "bytes" then
    match atoi res.contentLength with
    | some n => (started, DownloadPath.multi n)
    | none => (started, DownloadPath.fatalLength)
  else (started, DownloadPath.simple)

/-- Observable effect of one `simpleDownload` call. -/
structure SimpleEffect where
  /-- `log.Fatal("Cannot resume. Must be downloaded again")` was hit -/
  fatal : Bool
  /-- an HTTP GET was issued -/
  requestSent : Bool
  /-- the output file was opened (and hence created if absent) -/
  fileOpened : Bool
  bytesWritten : Nat
deriving Repr, DecidableEq

/-- Model of `simpleDownload`: in resume mode it dies with a fatal error
before making any request or touching any file; otherwise it issues the GET,
opens the output file and copies the whole body. -/
def simpleDownload (resume : Bool) (bodyLen : Nat) : SimpleEffect :=
  if resume then { fatal := true, requestSent := false, fileOpened := false, bytesWritten := 0 }
  else { fatal := false, requestSent := true, fileOpened := true, bytesWritten := bodyLen }

/-- Whether the shared cancellation signal is observed at the `select` of
loop iteration `i` (0-indexed).  `cancelAt = some t` means the signal is first
observable at check `t` — `Pause` ran after check `t - 1`, possibly during
that iteration's chunk copy; `none` means the signal is never set. -/
def cancelObserved (cancelAt : Option Nat) (i : Nat) : Bool :=
  match cancelAt with
  | none => false
  | some t => decide (t ≤ i)

/-- The chunked copy loop of the segment fetcher
(`for { select { case <-d.context.Done(): return; default: io.CopyN(...) } }`):
at each iteration it first checks the cancellation signal and stops if it is
set; otherwise `io.CopyN` writes `min bufSize remaining` bytes and returns
`io.EOF` exactly when fewer than `bufSize` bytes were available, ending the
loop.  Returns the number of bytes written.  The Go loop is unbounded (with
`bufSize = 0` it never terminates), so the model carries fuel. -/
def copyLoop (bufSize : Nat) (cancelAt : Option Nat) : Nat → Nat → Nat → Nat
  | 0, _, _ => 0
  | fuel + 1, i, remaining =>
    if cancelObserved cancelAt i then 0
    else if remaining < bufSize then remaining
    else bufSize + copyLoop bufSize cancelAt fuel (i + 1) (remaining - bufSize)

/-- Observable effect of one `downloadPartial` call. -/
structure PartialEffect where
  /-- an HTTP GET with a `Range` header was issued -/
  requestSent : Bool
  /-- the segment file was opened with `os.OpenFile` (creating it if absent) -/
  fileOpened : Bool
  /-- the segment file was opened with `os.O_APPEND` -/
  appendMode : Bool
  bytesWritten : Nat
deriving Repr, DecidableEq

/-- Model of `downloadPartial`: when `rangeStart >= rangeStop` it returns
immediately (nothing to download — no request, no file); otherwise it sends
the ranged GET, opens the segment file (append mode exactly when resuming) and
runs the chunked copy loop over the `bodyLen` bytes of the response body. -/
def downloadPartial (resume : Bool) (bufSize : Nat) (rangeStart rangeStop : Nat)
    (bodyLen : Nat) (cancelAt : Option Nat) : PartialEffect :=
  if rangeStart ≥ rangeStop then
    { requestSent := false, fileOpened := false, appendMode := false, bytesWritten := 0 }
  else
    { requestSent := true, fileOpened := true, appendMode := resume,
      bytesWritten := copyLoop bufSize cancelAt (bodyLen + 1) 0 bodyLen }

/-- The arguments with which `multiDownload` launches one segment fetcher:
the (resume-adjusted) inclusive range passed to `downloadPartial`, and the
byte count pre-credited to the progress bar (`d.bar.Add64(downloaded)`). -/
structure Launch where
  rangeStart : Nat
  rangeStop : Nat
  credited : Nat
deriving Repr, DecidableEq, Inhabited

/-- The `for i := 1; i <= d.config.Concurrency; i++` loop of `multiDownload`.
Per iteration: `downloaded` is the size of the existing part file when
resuming (0 otherwise); segment `i` is launched with start
`startRange + downloaded` and stop `startRange + partSize` (or `contentSize`
for the final segment); then `startRange += partSize + 1`.  The fuel argument
counts the remaining iterations. -/
def multiDownloadAux (resume : Bool) (diskSize : Nat → Option Nat)
    (contentSize pSize concurrency : Nat) : Nat → Nat → Nat → List Launch
  | 0, _, _ => []
  | n + 1, i, startRange =>
    let downloaded := if resume then (diskSize i).getD 0 else 0
    { rangeStart := startRange + downloaded,
      rangeStop := if i = concurrency then contentSize else startRange + pSize,
      credited := downloaded } ::
      multiDownloadAux resume diskSize contentSize pSize concurrency n (i + 1)
        (startRange + pSize + 1)

/-- The launch list computed by `multiDownload`: `partSize` is the integer
division `contentSize / concurrency`, the loop runs for segments
`1..concurrency` with `startRange` starting at 0. -/
def multiDownloadLaunches (resume : Bool) (diskSize : Nat → Option Nat)
    (contentSize concurrency : Nat) : List Launch :=
  multiDownloadAux resume diskSize contentSize (contentSize / concurrency)
    concurrency concurrency 1 0

/-- The inclusive `[start, stop]` pairs `multiDownload` passes to
`downloadPartial` when not resuming (no on-disk adjustment). -/
def multiDownloadRanges (contentSize concurrency : Nat) : List Launch :=
  multiDownloadLaunches false (fun _ => none) contentSize concurrency

/-- Byte index `j` lies in the inclusive `[rangeStart, rangeStop]` range of a
segment launch. -/
def covers (j : Nat) (l : Launch) : Bool :=
  decide (l.rangeStart ≤ j ∧ j ≤ l.rangeStop)

/-- One observable filesystem action of `merge`. -/
inductive MergeEvent where
  /-- the full contents of part file `i` were appended to the output -/
  | append (i : Nat) (content : List Nat)
  /-- part file `i` was deleted (`os.Remove`) -/
  | remove (i : Nat)
deriving Repr, DecidableEq

/-- The `for i := 1; i <= d.config.Concurrency; i++` loop of `merge`: open
part file `i`, copy it wholly into the destination, then remove it.  `parts i`
is the byte content of part file `i`. -/
def mergeAux (parts : Nat → List Nat) : Nat → Nat → List MergeEvent
  | 0, _ => []
  | n + 1, i => MergeEvent.append i (parts i) :: MergeEvent.remove i :: mergeAux parts n (i + 1)

/-- Model of `merge`: the ordered trace of appends and removals for segments
`1..concurrency`. -/
def merge (parts : Nat → List Nat) (concurrency : Nat) : List MergeEvent :=
  mergeAux parts concurrency 1

/-- The bytes written to the final output by a merge trace (the concatenation
of the appended contents, in trace order). -/
def mergeOutput : List MergeEvent → List Nat
  | [] => []
  | MergeEvent.append _ c :: rest => c ++ mergeOutput rest
  | MergeEvent.remove _ :: rest => mergeOutput rest

/-- The part ordinals removed by a merge trace, in removal order. -/
def mergeRemoved : List MergeEvent → List Nat
  | [] => []
  | MergeEvent.append _ _ :: rest => mergeRemoved rest
  | MergeEvent.remove i :: rest => i :: mergeRemoved rest

/-- The tail of `multiDownload` after `wg.Wait()`:
`if !d.Paused { d.merge() }` — the merger runs exactly when the session is not
paused; `none` models skipping it (part files left on disk). -/
def afterWait (paused : Bool) (parts : Nat → List Nat) (concurrency : Nat) :
    Option (List MergeEvent) :=
  if paused then none else some (merge parts concurrency)

/-- Ordered concatenation of part file contents `1..n`, the byte stream the
spec expects the merger to reconstruct. -/
def orderedConcat (parts : Nat → List Nat) : Nat → List Nat
  | 0 => []
  | n + 1 => orderedConcat parts n ++ parts (n + 1)

/-! ### Helper lemmas about the partition loop -/

theorem multiDownloadAux_length (resume : Bool) (dk : Nat → Option Nat) (L p N : Nat) :
    ∀ n i s, (multiDownloadAux resume dk L p N n i s).length = n := by
  intro n
  induction n with
  | zero => intro i s; rfl
  | succ m ih => intro i s; simp [multiDownloadAux, ih]

theorem multiDownloadAux_getD (resume : Bool) (dk : Nat → Option Nat) (L p N : Nat) :
    ∀ n k i s, k < n →
      (multiDownloadAux resume dk L p N n i s).getD k ⟨0, 0, 0⟩ =
        { rangeStart := s + k * (p + 1) + (if resume then (dk (i + k)).getD 0 else 0),
          rangeStop := if i + k = N then L else s + k * (p + 1) + p,
          credited := if resume then (dk (i + k)).getD 0 else 0 } := by
  intro n
  induction n with
  | zero => intro k i s hk; exact absurd hk (Nat.not_lt_zero k)
  | succ m ih =>
    intro k i s hk
    match k with
    | 0 =>
      simp [multiDownloadAux, List.getD_cons_zero]
    | k + 1 =>
      have hk2 : k < m := by omega
      have step : (multiDownloadAux resume dk L p N (m + 1) i s).getD (k + 1) ⟨0, 0, 0⟩
          = (multiDownloadAux resume dk L p N m (i + 1) (s + p + 1)).getD k ⟨0, 0, 0⟩ := by
        simp [multiDownloadAux, List.getD_cons_succ]
      rw [step, ih k (i + 1) (s + p + 1) hk2]
      have e1 : i + 1 + k = i + (k + 1) := by omega
      have e2 : s + p + 1 + k * (p + 1) = s + (k + 1) * (p + 1) := by ring
      rw [e1, e2]

theorem multiDownloadAux_start_ge (resume : Bool) (dk : Nat → Option Nat) (L p N : Nat) :
    ∀ n i s a, a ∈ multiDownloadAux resume dk L p N n i s → s ≤ a.rangeStart := by
  intro n
  induction n with
  | zero => intro i s a ha; simp [multiDownloadAux] at ha
  | succ m ih =>
    intro i s a ha
    simp only [multiDownloadAux, List.mem_cons] at ha
    rcases ha with ha | ha
    · subst ha; exact Nat.le_add_right s _
    · have := ih (i + 1) (s + p + 1) a ha
      omega

theorem multiDownloadAux_countP_zero (dk : Nat → Option Nat) (L p N j : Nat) :
    ∀ n i s, j < s →
      (multiDownloadAux false dk L p N n i s).countP (covers j) = 0 := by
  intro n i s hjs
  rw [List.countP_eq_zero]
  intro a ha
  have := multiDownloadAux_start_ge false dk L p N n i s a ha
  simp only [covers, decide_eq_true_eq]
  intro h
  omega

theorem multiDownloadAux_cons (dk : Nat → Option Nat) (L p N m i s : Nat) :
    multiDownloadAux false dk L p N (m + 1) i s
      = { rangeStart := s, rangeStop := if i = N then L else s + p, credited := 0 }
        :: multiDownloadAux false dk L p N m (i + 1) (s + p + 1) := by
  simp [multiDownloadAux]

theorem multiDownloadAux_countP_one (dk : Nat → Option Nat) (L p N j : Nat) (hjL : j < L) :
    ∀ n, 1 ≤ n → ∀ i s, i + n = N + 1 → s ≤ j →
      (multiDownloadAux false dk L p N n i s).countP (covers j) = 1 := by
  intro n
  induction n with
  | zero => intro h; exact absurd h (by omega)
  | succ m ih =>
    intro _ i s hiN hsj
    rw [multiDownloadAux_cons, List.countP_cons]
    rcases Nat.eq_zero_or_pos m with hm | hm
    · subst hm
      have hiN2 : i = N := by omega
      subst hiN2
      rw [if_pos rfl]
      have hc : covers j { rangeStart := s, rangeStop := L, credited := 0 } = true := by
        simp only [covers, decide_eq_true_eq]
        omega
      rw [hc]
      simp [multiDownloadAux]
    · have hine : i ≠ N := by omega
      rw [if_neg hine]
      rcases Nat.lt_or_ge j (s + p + 1) with hle | hgt
      · -- j falls in the head segment [s, s + p]
        have hc : covers j { rangeStart := s, rangeStop := s + p, credited := 0 } = true := by
          simp only [covers, decide_eq_true_eq]
          omega
        have htail := multiDownloadAux_countP_zero dk L p N j m (i + 1) (s + p + 1) (by omega)
        rw [hc, htail]
        simp
      · -- j lies beyond the head segment
        have hc : covers j { rangeStart := s, rangeStop := s + p, credited := 0 } = false := by
          simp only [covers, decide_eq_false_iff_not]
          omega
        have htail := ih hm (i + 1) (s + p + 1) (by omega) (by omega)
        rw [hc, htail]
        simp

/-! ### Helper lemmas about the merge loop -/

theorem orderedConcat_shift (f : Nat → List Nat) :
    ∀ n, f 1 ++ orderedConcat (fun k => f (k + 1)) n = orderedConcat f (n + 1) := by
  intro n
  induction n with
  | zero => simp [orderedConcat]
  | succ m ih =>
    show f 1 ++ (orderedConcat (fun k => f (k + 1)) m ++ f (m + 1 + 1)) = _
    rw [← List.append_assoc, ih]
    rfl

theorem mergeOutput_mergeAux_shift :
    ∀ n (f : Nat → List Nat) i,
      mergeOutput (mergeAux f n (i + 1)) = mergeOutput (mergeAux (fun k => f (k + 1)) n i) := by
  intro n
  induction n with
  | zero => intro f i; rfl
  | succ m ih =>
    intro f i
    show f (i + 1) ++ mergeOutput (mergeAux f m (i + 1 + 1)) = _
    rw [ih f (i + 1)]
    rfl

theorem mergeOutput_merge (parts : Nat → List Nat) :
    ∀ n, mergeOutput (merge parts n) = orderedConcat parts n := by
  intro n
  rw [merge]
  induction n generalizing parts with
  | zero => rfl
  | succ m ih =>
    show parts 1 ++ mergeOutput (mergeAux parts m 2) = _
    rw [mergeOutput_mergeAux_shift m parts 1, ih (fun k => parts (k + 1)),
      orderedConcat_shift]

theorem mergeRemoved_mergeAux (f : Nat → List Nat) :
    ∀ n i, mergeRemoved (mergeAux f n i) = List.range' i n := by
  intro n
  induction n with
  | zero => intro i; rfl
  | succ m ih =>
    intro i
    show i :: mergeRemoved (mergeAux f m (i + 1)) = _
    rw [ih (i + 1), List.range'_succ]

theorem mergeAux_eq_flatten (f : Nat → List Nat) :
    ∀ n i, mergeAux f n i
      = ((List.range' i n).map
          (fun k => [MergeEvent.append k (f k), MergeEvent.remove k])).flatten := by
  intro n
  induction n with
  | zero => intro i; rfl
  | succ m ih =>
    intro i
    rw [List.range'_succ, List.map_cons, List.flatten_cons, ← ih (i + 1)]
    rfl

/-! ### Helper lemmas about the copy loop and downloadPartial -/

theorem copyLoop_cancelled (b : Nat) (c : Option Nat) (fuel i r : Nat)
    (h : cancelObserved c i = true) : copyLoop b c fuel i r = 0 := by
  cases fuel with
  | zero => rfl
  | succ m => simp [copyLoop, h]

theorem copyLoop_succ_le (b t : Nat) :
    ∀ fuel i r, copyLoop b (some (t + 1)) fuel i r ≤ copyLoop b (some t) fuel i r + b := by
  intro fuel
  induction fuel with
  | zero => intro i r; simp [copyLoop]
  | succ m ih =>
    intro i r
    by_cases h1 : cancelObserved (some (t + 1)) i = true
    · rw [copyLoop_cancelled b (some (t + 1)) (m + 1) i r h1]
      exact Nat.zero_le _
    · have ht1 : ¬ t + 1 ≤ i := by
        simpa [cancelObserved] using h1
      by_cases h2 : cancelObserved (some t) i = true
      · -- the signal is first observed at the very next check: i = t
        have hti : t ≤ i := by simpa [cancelObserved] using h2
        have hobs : cancelObserved (some (t + 1)) (i + 1) = true := by
          simp only [cancelObserved, decide_eq_true_eq]
          omega
        rw [copyLoop_cancelled b (some t) (m + 1) i r h2]
        simp only [copyLoop, h1, if_false, Bool.false_eq_true]
        split
        · omega
        · rw [copyLoop_cancelled b (some (t + 1)) m (i + 1) (r - b) hobs]
          omega
      · simp only [copyLoop, h1, h2, if_false, Bool.false_eq_true]
        split
        · omega
        · have := ih (i + 1) (r - b)
          omega

theorem downloadPartial_noop (resume : Bool) (buf a b body : Nat) (c : Option Nat)
    (h : b ≤ a) :
    downloadPartial resume buf a b body c
      = { requestSent := false, fileOpened := false, appendMode := false,
          bytesWritten := 0 } := by
  unfold downloadPartial
  rw [if_pos h]

theorem Download_fst (d : Downloader) (res : HeadResponse) :
    (Download d res).1 = { d with hasCancel := true, cancelled := false } := by
  unfold Download
  split
  · cases atoi res.contentLength <;> rfl
  · rfl

/-! ### Helper lemma about the rename loop -/

theorem renameLoop_spec (stat : String → Bool) (filename ext outDir : String) :
    ∀ fuel counter r, renameLoop stat filename ext outDir fuel counter = some r →
      stat r = false
      ∧ ∃ k, counter ≤ k
          ∧ r = pathJoin outDir (filename ++ "(" ++ Nat.repr k ++ ")" ++ ext)
          ∧ ∀ j, counter ≤ j → j < k →
              stat (pathJoin outDir (filename ++ "(" ++ Nat.repr j ++ ")" ++ ext)) = true := by
  intro fuel
  induction fuel with
  | zero => intro counter r h; simp [renameLoop] at h
  | succ m ih =>
    intro counter r h
    simp only [renameLoop] at h
    by_cases hs : stat (pathJoin outDir (filename ++ "(" ++ Nat.repr counter ++ ")" ++ ext)) = true
    · rw [if_pos hs] at h
      obtain ⟨h1, k, hk1, hk2, hk3⟩ := ih (counter + 1) r h
      refine ⟨h1, k, by omega, hk2, fun j hj1 hj2 => ?_⟩
      rcases Nat.eq_or_lt_of_le hj1 with hj | hj
      · rw [← hj]; exact hs
      · exact hk3 j hj hj2
    · rw [if_neg hs] at h
      have hr : r = pathJoin outDir (filename ++ "(" ++ Nat.repr counter ++ ")" ++ ext) :=
        (Option.some_inj.mp h).symm
      subst hr
      exact ⟨by simpa using hs, counter, Nat.le_refl counter, rfl,
        fun j hj1 hj2 => absurd (Nat.lt_of_le_of_lt hj1 hj2) (Nat.lt_irrefl counter)⟩

/-! ### Claim theorems -/

/-- C1: For every concurrency level N ≥ 1 and every total byte length L, the N
segment ranges computed by multiDownload (the inclusive [start, stop] pairs
passed to downloadPartial) cover [0, L) exactly once: every byte index in
[0, L) lies in exactly one segment's range, and every segment's range starts
exactly one byte past the previous segment's stop (no gaps, no overlaps). -/
theorem segment_ranges_cover_exactly_once (N L : Nat) (hN : 1 ≤ N) :
    (∀ j, j < L → (multiDownloadRanges L N).countP (covers j) = 1)
    ∧ (∀ k, k + 1 < N →
        ((multiDownloadRanges L N).getD (k + 1) ⟨0, 0, 0⟩).rangeStart
          = ((multiDownloadRanges L N).getD k ⟨0, 0, 0⟩).rangeStop + 1) := by
  constructor
  · intro j hj
    exact multiDownloadAux_countP_one (fun _ => none) L (L / N) N j hj N hN 1 0
      (by omega) (Nat.zero_le j)
  · intro k hk
    unfold multiDownloadRanges multiDownloadLaunches
    rw [multiDownloadAux_getD false (fun _ => none) L (L / N) N N (k + 1) 1 0 (by omega),
      multiDownloadAux_getD false (fun _ => none) L (L / N) N N k 1 0 (by omega)]
    have hne : ¬ 1 + k = N := by omega
    simp only [if_neg hne]
    simp
    ring

/-- Witness for C1 at N = 4, L = 10 (partSize 2, ranges
[0,2],[3,5],[6,8],[9,10]): byte 7 is covered exactly once and segment 2 starts
one past segment 1's stop. -/
theorem segment_ranges_cover_exactly_once_witness :
    (multiDownloadRanges 10 4).countP (covers 7) = 1
    ∧ ((multiDownloadRanges 10 4).getD 1 ⟨0, 0, 0⟩).rangeStart
        = ((multiDownloadRanges 10 4).getD 0 ⟨0, 0, 0⟩).rangeStop + 1 :=
  ⟨(segment_ranges_cover_exactly_once 4 10 (by decide)).1 7 (by decide),
   (segment_ranges_cover_exactly_once 4 10 (by decide)).2 0 (by decide)⟩

/-- C2 counterexample: at L = 9, N = 3 (partSize 3) the code computes the
ranges [(0,3), (4,7), (8,9)], but the claim's formulas — start
(i-1)·partSize (+1 beyond the first), stop i·partSize for i < N — predict
[(0,3), (4,6), (7,9)]: segment 2's stop and segment 3's start both differ. -/
theorem partition_offsets_counterexample :
    multiDownloadRanges 9 3 ≠
      [{ rangeStart := 0, rangeStop := 1 * (9 / 3), credited := 0 },
       { rangeStart := 1 * (9 / 3) + 1, rangeStop := 2 * (9 / 3), credited := 0 },
       { rangeStart := 2 * (9 / 3) + 1, rangeStop := 9, credited := 0 }] := by
  decide

/-- C2 amended: multiDownload computes partSize = L / N by integer division
and, for segment i (1-indexed, here k = i - 1), a start offset equal to
(i-1)·(partSize+1) — the running start advances by partSize + 1 after every
segment, i.e. (i-1)·partSize plus (i-1), not plus 1 — a stop offset equal to
start + partSize for i < N, and a stop offset equal to L for i = N, with the
shortfall absorbed into the last segment. -/
theorem partition_offsets_amended (L N k : Nat) (hk : k < N) :
    (multiDownloadRanges L N).length = N
    ∧ (multiDownloadRanges L N).getD k ⟨0, 0, 0⟩
      = { rangeStart := k * (L / N + 1),
          rangeStop := if k + 1 = N then L else k * (L / N + 1) + L / N,
          credited := 0 } := by
  constructor
  · exact multiDownloadAux_length false (fun _ => none) L (L / N) N N 1 0
  · unfold multiDownloadRanges multiDownloadLaunches
    rw [multiDownloadAux_getD false (fun _ => none) L (L / N) N N k 1 0 hk]
    have hc : (1 + k = N) ↔ (k + 1 = N) := by omega
    simp [hc]

/-- Witness for C2's amended claim at L = 9, N = 3, segment 2 (k = 1):
its launch is (4, 7), i.e. start 1·(3+1) = 4 and stop 4 + 3 = 7. -/
theorem partition_offsets_amended_witness :
    (multiDownloadRanges 9 3).length = 3
    ∧ (multiDownloadRanges 9 3).getD 1 ⟨0, 0, 0⟩
      = { rangeStart := 1 * (9 / 3 + 1),
          rangeStop := if 1 + 1 = 3 then 9 else 1 * (9 / 3 + 1) + 9 / 3,
          credited := 0 } :=
  partition_offsets_amended 9 3 1 (by decide)

/-- C3: for segment i, when resume mode is active and a partial file exists
on disk with size s, multiDownload adds s to that segment's start offset
(leaving the stop offset unchanged) and pre-credits s bytes to the progress
bar; and any segment whose adjusted start is ≥ its stop does no work in
downloadPartial — no request, no file, no bytes. -/
theorem resume_adjusts_start_and_credit (L N i s : Nat) (disk : Nat → Option Nat)
    (h1 : 1 ≤ i) (h2 : i ≤ N) (hs : disk i = some s) :
    ((multiDownloadLaunches true disk L N).getD (i - 1) ⟨0, 0, 0⟩).rangeStart
        = ((multiDownloadLaunches false disk L N).getD (i - 1) ⟨0, 0, 0⟩).rangeStart + s
    ∧ ((multiDownloadLaunches true disk L N).getD (i - 1) ⟨0, 0, 0⟩).credited = s
    ∧ ((multiDownloadLaunches true disk L N).getD (i - 1) ⟨0, 0, 0⟩).rangeStop
        = ((multiDownloadLaunches false disk L N).getD (i - 1) ⟨0, 0, 0⟩).rangeStop
    ∧ (∀ resume buf a b body c, b ≤ a →
        downloadPartial resume buf a b body c
          = { requestSent := false, fileOpened := false, appendMode := false,
              bytesWritten := 0 }) := by
  have htrue := multiDownloadAux_getD true disk L (L / N) N N (i - 1) 1 0 (by omega)
  have hfalse := multiDownloadAux_getD false disk L (L / N) N N (i - 1) 1 0 (by omega)
  have hidx : 1 + (i - 1) = i := by omega
  rw [hidx] at htrue hfalse
  rw [hs] at htrue
  unfold multiDownloadLaunches
  rw [htrue, hfalse]
  exact ⟨by simp, by simp, by simp,
    fun resume buf a b body c h => downloadPartial_noop resume buf a b body c h⟩

/-- Witness for C3 at L = 9, N = 3, segment 2 with 3 bytes already on disk:
its launch start becomes 4 + 3 = 7 and 3 bytes are pre-credited. -/
theorem resume_adjusts_start_and_credit_witness :
    ((multiDownloadLaunches true (fun k => if k = 2 then some 3 else none) 9 3).getD 1
        ⟨0, 0, 0⟩).rangeStart
      = ((multiDownloadLaunches false (fun k => if k = 2 then some 3 else none) 9 3).getD 1
          ⟨0, 0, 0⟩).rangeStart + 3
    ∧ ((multiDownloadLaunches true (fun k => if k = 2 then some 3 else none) 9 3).getD 1
        ⟨0, 0, 0⟩).credited = 3 :=
  ⟨(resume_adjusts_start_and_credit 9 3 2 3 (fun k => if k = 2 then some 3 else none)
      (by decide) (by decide) (by decide)).1,
   (resume_adjusts_start_and_credit 9 3 2 3 (fun k => if k = 2 then some 3 else none)
      (by decide) (by decide) (by decide)).2.1⟩

/-- C4: after the segment fetches have joined, the merger runs if and only if
the session is not paused; when it runs it appends segment i's full contents
strictly before segment i+1's for every i and removes each segment file right
after appending it, and when paused there is no merge trace at all (segment
files stay on disk). -/
theorem merger_runs_iff_not_paused (paused : Bool) (parts : Nat → List Nat) (N : Nat) :
    (afterWait paused parts N = none ↔ paused = true)
    ∧ (afterWait paused parts N = some (merge parts N) ↔ paused = false)
    ∧ merge parts N
        = ((List.range' 1 N).map
            (fun i => [MergeEvent.append i (parts i), MergeEvent.remove i])).flatten
    ∧ mergeOutput (merge parts N) = orderedConcat parts N
    ∧ mergeRemoved (merge parts N) = List.range' 1 N := by
  refine ⟨?_, ?_, mergeAux_eq_flatten parts N 1, mergeOutput_merge parts N,
    mergeRemoved_mergeAux parts N 1⟩
  · cases paused <;> simp [afterWait]
  · cases paused <;> simp [afterWait]

/-- Witness for C4 with two one-byte segments: pausing skips the merger, and
merging produces segment 1's bytes followed by segment 2's. -/
theorem merger_runs_iff_not_paused_witness :
    afterWait true (fun i => [i]) 2 = none
    ∧ mergeOutput (merge (fun i => [i]) 2) = orderedConcat (fun i => [i]) 2 :=
  ⟨((merger_runs_iff_not_paused true (fun i => [i]) 2).1).mpr rfl,
   (merger_runs_iff_not_paused true (fun i => [i]) 2).2.2.2.1⟩

/-- C5: Download takes the simpleDownload (whole-file) path exactly when the
HEAD response is not status 200 with an `Accept-Ranges: bytes` header; when it
is, and the Content-Length parses as n, Download takes the multi-segment path
with content size n. -/
theorem head_probe_dispatch (d : Downloader) (res : HeadResponse) :
    ((Download d res).2 = DownloadPath.simple
      ↔ ¬(res.statusCode = 200 ∧ res.acceptRanges = "bytes"))
    ∧ (∀ n, res.statusCode = 200 → res.acceptRanges = "bytes" →
        atoi res.contentLength = some n →
        (Download d res).2 = DownloadPath.multi n) := by
  constructor
  · unfold Download
    by_cases h : res.statusCode = 200 ∧ res.acceptRanges = "bytes"
    · rw [if_pos h]
      cases hn : atoi res.contentLength <;> simp [h]
    · rw [if_neg h]
      simp [h]
  · intro n h200 hbytes hn
    unfold Download
    rw [if_pos ⟨h200, hbytes⟩, hn]

/-- Witness for C5: a HEAD response without `Accept-Ranges: bytes` dispatches
to simpleDownload, and a range-capable one with Content-Length 1000 dispatches
to multiDownload 1000. -/
theorem head_probe_dispatch_witness :
    (Download newDownloader ⟨200, "none", "10"⟩).2 = DownloadPath.simple
    ∧ (Download newDownloader ⟨200, "bytes", "1000"⟩).2 = DownloadPath.multi 1000 :=
  ⟨((head_probe_dispatch newDownloader ⟨200, "none", "10"⟩).1).mpr (by simp),
   (head_probe_dispatch newDownloader ⟨200, "bytes", "1000"⟩).2 1000 rfl rfl (by decide)⟩

/-- C6: in resume mode the whole-file path (simpleDownload) dies with a fatal
error before sending any request or opening any file, instead of silently
restarting from scratch; without resume it is not fatal. -/
theorem resume_on_simple_path_fatal (bodyLen : Nat) :
    simpleDownload true bodyLen
      = { fatal := true, requestSent := false, fileOpened := false, bytesWritten := 0 }
    ∧ (simpleDownload false bodyLen).fatal = false := by
  exact ⟨rfl, rfl⟩

/-- C7: when not resuming, the filename resolver returns a path no existing
file collides with, either the original path or the candidate built by
stripping the extension and appending (k) for the least unused counter k ≥ 1;
in resume mode the configured path is returned unchanged. -/
theorem rename_avoids_collisions (resume : Bool) (stat : String → Bool) (fuel : Nat)
    (out r : String) (h : renameFilenameIfNecessary resume stat fuel out = some r) :
    (resume = true → r = out)
    ∧ (resume = false → stat r = false
        ∧ (r = out ∨ ∃ k, 1 ≤ k ∧ r = renameCandidate out k
            ∧ ∀ j, 1 ≤ j → j < k → stat (renameCandidate out j) = true)) := by
  constructor
  · intro hres
    subst hres
    unfold renameFilenameIfNecessary at h
    rw [if_pos rfl] at h
    exact (Option.some_inj.mp h).symm
  · intro hres
    subst hres
    unfold renameFilenameIfNecessary at h
    rw [if_neg (by simp)] at h
    by_cases hs : stat out = true
    · rw [if_pos hs] at h
      obtain ⟨h1, k, hk1, hk2, hk3⟩ := renameLoop_spec stat _ _ _ fuel 1 r h
      exact ⟨h1, Or.inr ⟨k, hk1, hk2, hk3⟩⟩
    · rw [if_neg hs] at h
      have hr : r = out := (Option.some_inj.mp h).symm
      subst hr
      exact ⟨by simpa using hs, Or.inl rfl⟩

/-- Witness for C7: with `a.txt` and `a(1).txt` on disk, the resolver returns
`a(2).txt`, which does not exist. -/
theorem rename_avoids_collisions_witness :
    ((false : Bool) = true → "a(2).txt" = "a.txt")
    ∧ ((false : Bool) = false
        → (fun s => s == "a.txt" || s == "a(1).txt") "a(2).txt" = false
        ∧ ("a(2).txt" = "a.txt"
            ∨ ∃ k, 1 ≤ k ∧ "a(2).txt" = renameCandidate "a.txt" k
              ∧ ∀ j, 1 ≤ j → j < k →
                  (fun s => s == "a.txt" || s == "a(1).txt") (renameCandidate "a.txt" j)
                    = true)) :=
  rename_avoids_collisions false (fun s => s == "a.txt" || s == "a(1).txt") 5
    "a.txt" "a(2).txt" (by decide)

/-- C8: the segment fetcher checks the cancellation signal before each chunk
copy and never mid-chunk: if the signal is already set at the first check the
loop writes nothing, letting the signal be observed one check later (the
worker was mid-chunk when Pause ran) adds at most one chunk — at most
CopyBufferSize bytes — and a downloadPartial whose signal is set before the
first check writes no bytes at all. -/
theorem pause_chunk_granularity (bufSize total t fuel : Nat) :
    copyLoop bufSize (some 0) fuel 0 total = 0
    ∧ copyLoop bufSize (some (t + 1)) fuel 0 total
        ≤ copyLoop bufSize (some t) fuel 0 total + bufSize
    ∧ (∀ resume a b body,
        (downloadPartial resume bufSize a b body (some 0)).bytesWritten = 0) := by
  refine ⟨copyLoop_cancelled bufSize (some 0) fuel 0 total (by simp [cancelObserved]),
    copyLoop_succ_le bufSize t fuel 0 total, ?_⟩
  intro resume a b body
  by_cases hab : b ≤ a
  · rw [downloadPartial_noop resume bufSize a b body (some 0) hab]
  · unfold downloadPartial
    rw [if_neg hab]
    simp [copyLoop_cancelled bufSize (some 0) (body + 1) 0 body (by simp [cancelObserved])]

/-- C9 counterexample: on a freshly constructed downloader (Download never
invoked) `cancel` is a nil function, so Pause panics (modelled by `none`)
instead of merely setting the paused flag: the call does fail. -/
theorem pause_before_download_counterexample :
    Pause newDownloader = none
    ∧ Pause newDownloader ≠ some { newDownloader with Paused := true } := by
  decide

/-- C9 amended: Pause always sets the paused flag and invokes the
cancellation function; after Download has installed a context this cancels it
and changes nothing else, but before Download has ever been invoked the
cancellation function is nil and Pause panics rather than being a no-op. -/
theorem pause_amended (d : Downloader) (res : HeadResponse) :
    Pause ((Download d res).1)
      = some { d with hasCancel := true, cancelled := true, Paused := true }
    ∧ (d.hasCancel = false → Pause d = none) := by
  constructor
  · rw [Download_fst]
    rfl
  · intro h
    unfold Pause
    rw [if_neg (by simp [h])]

/-- Witness for C9's amended claim: Pause right after Download on a fresh
session succeeds and marks it paused and cancelled; Pause on the fresh
session itself (nil cancel) panics. -/
theorem pause_amended_witness :
    Pause ((Download newDownloader ⟨200, "bytes", "10"⟩).1)
      = some { newDownloader with hasCancel := true, cancelled := true, Paused := true }
    ∧ (newDownloader.hasCancel = false → Pause newDownloader = none) :=
  pause_amended newDownloader ⟨200, "bytes", "10"⟩

/-- C10: every downloadPartial call with rangeStart ≥ rangeStop returns
immediately: no HTTP request is sent, the segment file is never created or
opened, and no bytes are written — regardless of resume mode. -/
theorem degenerate_range_no_work (resume : Bool) (buf rangeStart rangeStop body : Nat)
    (c : Option Nat) (h : rangeStart ≥ rangeStop) :
    downloadPartial resume buf rangeStart rangeStop body c
      = { requestSent := false, fileOpened := false, appendMode := false,
          bytesWritten := 0 } :=
  downloadPartial_noop resume buf rangeStart rangeStop body c h

/-- Witness for C10 at the empty last segment produced by L = 12, N = 4
(start 12, stop 12): nothing happens. -/
theorem degenerate_range_no_work_witness :
    downloadPartial true 1024 12 12 100 none
      = { requestSent := false, fileOpened := false, appendMode := false,
          bytesWritten := 0 } :=
  degenerate_range_no_work true 1024 12 12 100 none (by decide)

end GoDl
